import Mathlib

/-!
# Verification of `hotel-splitter` core calculations

Shallow embedding of `src/calculations.ts` (the Cost Calculator):
`calculateNights`, `getNightDates`, `calculateCosts`, together with the
`Person` / `PersonCost` records they operate on.

Modelling decisions:
* JavaScript numbers carrying prices are modelled as exact rationals (`ℚ`);
  the source applies no rounding, only field arithmetic.
* Night counts are `Nat` (the source produces them via `calculateNights`,
  which yields non-negative integers on its guarded paths).
* `person.nights[i]` for `i` beyond the array's length is `undefined` in
  JavaScript, which is falsy in the `if`; this is modelled by `List.getD i
  false`.
* Calendar dates are triples `(year, month, day)` of naturals in the
  proleptic Gregorian calendar; `new Date(s + "T00:00:00")` parsing of a
  `YYYY-MM-DD` string is modelled by `parseDate`, with `none` standing for
  JavaScript's Invalid Date (time value `NaN`).  Time values (`getTime`)
  are milliseconds from the 1970-01-01 epoch with every day exactly
  86400000 ms (a fixed-offset environment; daylight-saving shifts are an
  environment concern outside the program text).
* A JavaScript expression that produces `NaN` (respectively throws, for
  `toISOString` on an Invalid Date) is modelled with `Option`: `none` is
  the NaN/throw outcome.
-/

namespace HotelSplitter

/-- `interface Person` from `src/calculations.ts`. -/
structure Person where
  id : String
  name : String
  nights : List Bool
deriving Repr, DecidableEq

/-- `interface PersonCost` from `src/calculations.ts`. -/
structure PersonCost where
  personId : String
  perNight : List ℚ
  total : ℚ
deriving Repr, DecidableEq

/-- `people.filter((p) => p.nights[i]).length` — the number of people in the
roster whose attendance flag at night `i` is present and true. -/
def peopleThisNight (people : List Person) (i : Nat) : Nat :=
  (people.filter (fun p => p.nights.getD i false)).length

/-- The cost charged to one person for night `i` (the body of the inner
loop of `calculateCosts`): if the person is flagged present, the nightly
price split by that night's occupancy count (with the defensive
`peopleThisNight > 0` guard), else `0`. -/
def costThisNight (people : List Person) (pricePerNight : ℚ)
    (person : Person) (i : Nat) : ℚ :=
  if person.nights.getD i false then
    if peopleThisNight people i > 0 then
      pricePerNight / (peopleThisNight people i : ℚ)
    else 0
  else 0

/-- One iteration of the outer `for (const person of people)` loop:
the `PersonCost` record pushed for `person`.  The running `total`
accumulator is the left fold of the `perNight` entries, mirroring
`total += costThisNight`. -/
def personCostFor (people : List Person) (pricePerNight : ℚ)
    (nights : Nat) (person : Person) : PersonCost :=
  { personId := person.id
    perNight := (List.range nights).map (costThisNight people pricePerNight person)
    total := ((List.range nights).map (costThisNight people pricePerNight person)).foldl
      (· + ·) 0 }

/-- `calculateCosts` from `src/calculations.ts`. -/
def calculateCosts (people : List Person) (totalPrice : ℚ)
    (nights : Nat) : List PersonCost :=
  if nights = 0 ∨ totalPrice = 0 ∨ people.length = 0 then []
  else
    let pricePerNight := totalPrice / (nights : ℚ)
    people.map (personCostFor people pricePerNight nights)

/-! ## Calendar model

`new Date(s + "T00:00:00")` on a well-formed `YYYY-MM-DD` string yields
local midnight of that proleptic-Gregorian calendar day; on anything else
it yields an Invalid Date (time value NaN).  We model the calendar day as
a `Date` triple, the parse as `parseDate` (`none` = Invalid Date), the
time value as milliseconds since 1970-01-01 with 86400000 ms per day, and
`toISOString().split("T")[0]` as `formatDate ∘ fromDays`. -/

/-- A proleptic Gregorian calendar date (year 0 or later). -/
structure Date where
  year : Nat
  month : Nat
  day : Nat
deriving Repr, DecidableEq

/-- Gregorian leap-year rule. -/
def isLeap (y : Nat) : Bool := (y % 4 == 0 && y % 100 != 0) || y % 400 == 0

/-- Number of days in month `m` (1–12) of year `y`; 0 for out-of-range
months. -/
def daysInMonth (y m : Nat) : Nat :=
  match m with
  | 2 => if isLeap y then 29 else 28
  | 4 => 30
  | 6 => 30
  | 9 => 30
  | 11 => 30
  | 1 => 31
  | 3 => 31
  | 5 => 31
  | 7 => 31
  | 8 => 31
  | 10 => 31
  | 12 => 31
  | _ => 0

/-- Days preceding month `m` in a common year. -/
def monthOffset (m : Nat) : Nat :=
  match m with
  | 1 => 0
  | 2 => 31
  | 3 => 59
  | 4 => 90
  | 5 => 120
  | 6 => 151
  | 7 => 181
  | 8 => 212
  | 9 => 243
  | 10 => 273
  | 11 => 304
  | 12 => 334
  | _ => 0

/-- Days of year `y` preceding the first of month `m`. -/
def daysBeforeMonth (y m : Nat) : Nat :=
  monthOffset m + (if 2 < m ∧ isLeap y then 1 else 0)

/-- Number of leap years in `[0, y)` (year 0 itself is leap). -/
def leapsBefore (y : Nat) : Nat :=
  (y + 3) / 4 - (y + 99) / 100 + (y + 399) / 400

/-- Rata-die day number: days from 0000-01-01 to the given date. -/
def toDays (dt : Date) : Nat :=
  365 * dt.year + leapsBefore dt.year + daysBeforeMonth dt.year dt.month
    + (dt.day - 1)

/-- Year-of-era (0–399) of a day-of-era (0–146096), March-based. -/
def yoeOf (doe : Nat) : Nat :=
  (doe - doe / 1460 + doe / 36524 - doe / 146096) / 365

/-- Day-of-March-year (0–365) of a day-of-era. -/
def doyOf (doe : Nat) : Nat :=
  doe - (365 * yoeOf doe + yoeOf doe / 4 - yoeOf doe / 100)

/-- Assemble a civil `Date` from era, year-of-era, March-month index
(0 = March … 11 = February) and day-of-March-year.  The era count is
shifted by one 400-year cycle (see `fromDays`). -/
def monthFromMp (era yoe mp doy : Nat) : Date :=
  if mp < 10 then ⟨yoe + era * 400 - 400, mp + 3, doy - (153 * mp + 2) / 5 + 1⟩
  else ⟨yoe + era * 400 + 1 - 400, mp - 9, doy - (153 * mp + 2) / 5 + 1⟩

/-- Civil date from a (shifted) era and day-of-era. -/
def fromDoe (era doe : Nat) : Date :=
  monthFromMp era (yoeOf doe) ((5 * doyOf doe + 2) / 153) (doyOf doe)

/-- The calendar date with rata-die day number `n` (inverse of `toDays`),
by the standard era/day-of-era decomposition over 400-year cycles; the
input is shifted by 146037 days (one era minus the 60 days from
0000-01-01 to 0000-03-01) so that eras are counted from March 1 of year
−400 and everything stays in `Nat`. -/
def fromDays (n : Nat) : Date :=
  fromDoe ((n + 146037) / 146097) ((n + 146037) % 146097)

/-- The calendar successor: next day, rolling over month and year ends. -/
def succDay (dt : Date) : Date :=
  if dt.day < daysInMonth dt.year dt.month then ⟨dt.year, dt.month, dt.day + 1⟩
  else if dt.month < 12 then ⟨dt.year, dt.month + 1, 1⟩
  else ⟨dt.year + 1, 1, 1⟩

/-- In-range month and day (month 1–12, day 1 to the month's length). -/
def ValidDate (dt : Date) : Prop :=
  1 ≤ dt.month ∧ dt.month ≤ 12 ∧ 1 ≤ dt.day ∧ dt.day ≤ daysInMonth dt.year dt.month

instance : DecidablePred ValidDate := fun dt => by
  unfold ValidDate
  infer_instance

/-- Rata-die day number of the 1970-01-01 epoch. -/
def epochDays : Nat := toDays ⟨1970, 1, 1⟩

/-- `Date.prototype.getTime`: milliseconds since the 1970 epoch of local
midnight, in an environment with a fixed UTC offset of zero (every day is
exactly 86400000 ms; daylight-saving is an environment concern outside the
program text). -/
def getTime (dt : Date) : Int :=
  ((toDays dt : Int) - (epochDays : Int)) * 86400000

/-- Split a character list at every `-` (accumulator holds the current
field reversed). -/
def splitDash : List Char → List Char → List (List Char)
  | [], acc => [acc.reverse]
  | c :: rest, acc =>
    if c = '-' then acc.reverse :: splitDash rest []
    else splitDash rest (c :: acc)

/-- The numeric value of a non-empty all-digit field, else `none`. -/
def digitsToNat? (cs : List Char) : Option Nat :=
  if cs ≠ [] ∧ cs.all Char.isDigit then
    some (cs.foldl (fun acc c => 10 * acc + (c.toNat - 48)) 0)
  else none

/-- The parse of `s + "T00:00:00"` by the `Date` constructor, date part:
a `YYYY-MM-DD` string (4-2-2 decimal digits, in-range month and day)
yields that calendar date; anything else yields Invalid Date (`none`). -/
def parseDate (s : String) : Option Date :=
  match splitDash s.toList [] with
  | [ys, ms, ds] =>
    match digitsToNat? ys, digitsToNat? ms, digitsToNat? ds with
    | some y, some m, some d =>
      if ys.length = 4 ∧ ms.length = 2 ∧ ds.length = 2
          ∧ 1 ≤ m ∧ m ≤ 12 ∧ 1 ≤ d ∧ d ≤ daysInMonth y m
      then some ⟨y, m, d⟩ else none
    | _, _, _ => none
  | _ => none

/-- Left-pad the decimal form of `n` with zeros to `width` characters. -/
def padNum (width n : Nat) : String :=
  let s := toString n
  if s.length < width then String.mk (List.replicate (width - s.length) '0') ++ s
  else s

/-- The date part of `toISOString()`: `YYYY-MM-DD`, or the expanded
`+YYYYYY-MM-DD` form for years beyond 9999. -/
def formatDate (dt : Date) : String :=
  if dt.year ≤ 9999 then
    padNum 4 dt.year ++ "-" ++ padNum 2 dt.month ++ "-" ++ padNum 2 dt.day
  else
    "+" ++ padNum 6 dt.year ++ "-" ++ padNum 2 dt.month ++ "-" ++ padNum 2 dt.day

/-- `calculateNights` from `src/calculations.ts`.  The result is a JS
number: `some n` for an ordinary integer result, `none` for the `NaN`
produced when a non-empty date string fails to parse (the `<=` guard is
false on NaN, and `Math.floor(NaN)` is `NaN`). -/
def calculateNights (checkIn checkOut : String) : Option Int :=
  if checkIn = "" ∨ checkOut = "" then some 0
  else
    match parseDate checkIn, parseDate checkOut with
    | some a, some b =>
      if getTime b ≤ getTime a then some 0
      else some (Int.fdiv (getTime b - getTime a) 86400000)
    | _, _ => none

/-- `getNightDates` from `src/calculations.ts`.  Each loop iteration
copies the check-in date, advances its day-of-month by `i` (normalised by
the `Date` time value, i.e. `fromDays (toDays d + i)`), and takes the date
part of `toISOString()`.  `none` models the `RangeError` that
`toISOString` throws on an Invalid Date when the non-empty check-in string
failed to parse and the loop body runs. -/
def getNightDates (checkIn : String) (nights : Nat) : Option (List String) :=
  if checkIn = "" ∨ nights = 0 then some []
  else
    match parseDate checkIn with
    | some d =>
      some ((List.range nights).map fun i => formatDate (fromDays (toDays d + i)))
    | none => none

/-- Default `Person` used with `List.getD` in theorem statements. -/
def p0 : Person := ⟨"", "", []⟩

/-- Default `PersonCost` used with `List.getD` in theorem statements. -/
def pc0 : PersonCost := ⟨"", [], 0⟩

/-! ## Calendar lemmas -/

lemma isLeap_iff {y : Nat} :
    isLeap y = true ↔ ((y % 4 = 0 ∧ y % 100 ≠ 0) ∨ y % 400 = 0) := by
  unfold isLeap
  simp [Bool.or_eq_true, Bool.and_eq_true, beq_iff_eq, bne_iff_ne]

lemma succDay_valid {dt : Date} (h : ValidDate dt) : ValidDate (succDay dt) := by
  obtain ⟨y, m, d⟩ := dt
  obtain ⟨h1, h2, h3, h4⟩ := h
  dsimp only at h1 h2 h3 h4
  unfold succDay
  dsimp only
  split_ifs with hd hm
  all_goals simp only [ValidDate]
  · exact ⟨h1, h2, by omega, by omega⟩
  · refine ⟨by omega, by omega, by omega, ?_⟩
    by_cases hL : isLeap y = true <;> interval_cases m <;> simp [daysInMonth, hL]
  · refine ⟨by omega, by omega, by omega, ?_⟩
    simp [daysInMonth]

lemma toDays_succDay {dt : Date} (h : ValidDate dt) :
    toDays (succDay dt) = toDays dt + 1 := by
  obtain ⟨y, m, d⟩ := dt
  obtain ⟨h1, h2, h3, h4⟩ := h
  dsimp only at h1 h2 h3 h4
  unfold succDay
  dsimp only
  split_ifs with hd hm
  · simp only [toDays]
    omega
  · simp only [toDays]
    by_cases hL : isLeap y = true <;>
      interval_cases m <;>
      simp [daysInMonth, daysBeforeMonth, monthOffset, hL] at hd h4 ⊢ <;>
      omega
  · have hm12 : m = 12 := by omega
    subst hm12
    simp [daysInMonth] at hd h4
    have hd31 : d = 31 := by omega
    subst hd31
    by_cases hL : isLeap y = true
    · simp [toDays, daysBeforeMonth, monthOffset, leapsBefore, hL]
      rw [isLeap_iff] at hL
      omega
    · simp [toDays, daysBeforeMonth, monthOffset, leapsBefore, hL]
      rw [isLeap_iff] at hL
      omega

set_option maxHeartbeats 4000000 in
/-- Year-of-era extraction is correct on any validly encoded day-of-era:
the side condition says day 365 only occurs in a long (leap) March-year. -/
lemma yoeOf_eq (Y D : Nat) (hY : Y ≤ 399) (hD : D ≤ 365)
    (hside : D ≤ 364 ∨ ((Y + 1) % 4 = 0 ∧ ((Y + 1) % 100 ≠ 0 ∨ Y = 399))) :
    yoeOf (365 * Y + Y / 4 - Y / 100 + D) = Y := by
  unfold yoeOf
  interval_cases Y <;> omega

lemma doyOf_eq (Y D : Nat) (hY : Y ≤ 399) (hD : D ≤ 365)
    (hside : D ≤ 364 ∨ ((Y + 1) % 4 = 0 ∧ ((Y + 1) % 100 ≠ 0 ∨ Y = 399))) :
    doyOf (365 * Y + Y / 4 - Y / 100 + D) = D := by
  unfold doyOf
  rw [yoeOf_eq Y D hY hD hside]
  omega

lemma fromDays_decomp (n era Y D : Nat)
    (hEq : n + 146037 = 146097 * era + (365 * Y + Y / 4 - Y / 100 + D))
    (hY : Y ≤ 399) (hD : D ≤ 365)
    (hside : D ≤ 364 ∨ ((Y + 1) % 4 = 0 ∧ ((Y + 1) % 100 ≠ 0 ∨ Y = 399))) :
    fromDays n = monthFromMp era Y ((5 * D + 2) / 153) D := by
  unfold fromDays fromDoe
  have h1 : (n + 146037) / 146097 = era := by omega
  have h2 : (n + 146037) % 146097 = 365 * Y + Y / 4 - Y / 100 + D := by omega
  rw [h1, h2, yoeOf_eq Y D hY hD hside, doyOf_eq Y D hY hD hside]

lemma era_decomp_mar (y b : Nat)
    (hb1 : ((y % 4 = 0 ∧ y % 100 ≠ 0) ∨ y % 400 = 0) → b = 1)
    (hb0 : ¬((y % 4 = 0 ∧ y % 100 ≠ 0) ∨ y % 400 = 0) → b = 0) :
    365 * y + ((y + 3) / 4 - (y + 99) / 100 + (y + 399) / 400) + b + 146096
      = 146097 * ((y + 400) / 400) + 365 * ((y + 400) % 400)
        + ((y + 400) % 400) / 4 - ((y + 400) % 400) / 100 := by
  omega

lemma era_decomp_jan (y : Nat) :
    365 * y + ((y + 3) / 4 - (y + 99) / 100 + (y + 399) / 400) + 145731
      = 146097 * ((y + 399) / 400) + 365 * ((y + 399) % 400)
        + ((y + 399) % 400) / 4 - ((y + 399) % 400) / 100 := by
  omega

lemma fromDays_eq_jan (y d : Nat) (hd1 : 1 ≤ d) (hd31 : d ≤ 31) :
    fromDays (365 * y + ((y + 3) / 4 - (y + 99) / 100 + (y + 399) / 400) + (d - 1))
      = ⟨y, 1, d⟩ := by
  have hera := era_decomp_jan y
  rw [fromDays_decomp _ ((y + 399) / 400) ((y + 399) % 400) (306 + (d - 1))
    (by omega) (by omega) (by omega) (Or.inl (by omega))]
  clear hera
  have hmp : (5 * (306 + (d - 1)) + 2) / 153 = 10 := by omega
  rw [hmp]
  unfold monthFromMp
  rw [if_neg (by omega)]
  simp only [Date.mk.injEq]
  refine ⟨by omega, by simp, by omega⟩

lemma fromDays_eq_feb (y d : Nat) (hd1 : 1 ≤ d)
    (hd : d ≤ 28 ∨ (d = 29 ∧ ((y % 4 = 0 ∧ y % 100 ≠ 0) ∨ y % 400 = 0))) :
    fromDays (365 * y + ((y + 3) / 4 - (y + 99) / 100 + (y + 399) / 400)
        + (31 + (d - 1)))
      = ⟨y, 2, d⟩ := by
  have hera := era_decomp_jan y
  rw [fromDays_decomp _ ((y + 399) / 400) ((y + 399) % 400) (337 + (d - 1))
    (by omega) (by omega) (by omega) (by omega)]
  clear hera
  have hmp : (5 * (337 + (d - 1)) + 2) / 153 = 11 := by omega
  rw [hmp]
  unfold monthFromMp
  rw [if_neg (by omega)]
  simp only [Date.mk.injEq]
  refine ⟨by omega, by simp, by omega⟩

lemma fromDays_eq_mar (y m d b : Nat) (hm3 : 3 ≤ m) (hm12 : m ≤ 12)
    (hd1 : 1 ≤ d) (hdim : d ≤ daysInMonth y m)
    (hb1 : ((y % 4 = 0 ∧ y % 100 ≠ 0) ∨ y % 400 = 0) → b = 1)
    (hb0 : ¬((y % 4 = 0 ∧ y % 100 ≠ 0) ∨ y % 400 = 0) → b = 0) :
    fromDays (365 * y + ((y + 3) / 4 - (y + 99) / 100 + (y + 399) / 400)
        + (monthOffset m + b) + (d - 1))
      = ⟨y, m, d⟩ := by
  have hera := era_decomp_mar y b hb1 hb0
  have hble : b ≤ 1 := by
    by_cases hc : ((y % 4 = 0 ∧ y % 100 ≠ 0) ∨ y % 400 = 0)
    · omega
    · omega
  interval_cases m <;> simp only [daysInMonth] at hdim <;> simp only [monthOffset]
  · rw [fromDays_decomp _ ((y + 400) / 400) ((y + 400) % 400) (0 + (d - 1))
      (by omega) (by omega) (by omega) (Or.inl (by omega))]
    clear hera
    have hmp : (5 * (0 + (d - 1)) + 2) / 153 = 0 := by omega
    rw [hmp]
    unfold monthFromMp
    rw [if_pos (by omega)]
    simp only [Date.mk.injEq]
    refine ⟨by omega, by simp, by omega⟩
  · rw [fromDays_decomp _ ((y + 400) / 400) ((y + 400) % 400) (31 + (d - 1))
      (by omega) (by omega) (by omega) (Or.inl (by omega))]
    clear hera
    have hmp : (5 * (31 + (d - 1)) + 2) / 153 = 1 := by omega
    rw [hmp]
    unfold monthFromMp
    rw [if_pos (by omega)]
    simp only [Date.mk.injEq]
    refine ⟨by omega, by simp, by omega⟩
  · rw [fromDays_decomp _ ((y + 400) / 400) ((y + 400) % 400) (61 + (d - 1))
      (by omega) (by omega) (by omega) (Or.inl (by omega))]
    clear hera
    have hmp : (5 * (61 + (d - 1)) + 2) / 153 = 2 := by omega
    rw [hmp]
    unfold monthFromMp
    rw [if_pos (by omega)]
    simp only [Date.mk.injEq]
    refine ⟨by omega, by simp, by omega⟩
  · rw [fromDays_decomp _ ((y + 400) / 400) ((y + 400) % 400) (92 + (d - 1))
      (by omega) (by omega) (by omega) (Or.inl (by omega))]
    clear hera
    have hmp : (5 * (92 + (d - 1)) + 2) / 153 = 3 := by omega
    rw [hmp]
    unfold monthFromMp
    rw [if_pos (by omega)]
    simp only [Date.mk.injEq]
    refine ⟨by omega, by simp, by omega⟩
  · rw [fromDays_decomp _ ((y + 400) / 400) ((y + 400) % 400) (122 + (d - 1))
      (by omega) (by omega) (by omega) (Or.inl (by omega))]
    clear hera
    have hmp : (5 * (122 + (d - 1)) + 2) / 153 = 4 := by omega
    rw [hmp]
    unfold monthFromMp
    rw [if_pos (by omega)]
    simp only [Date.mk.injEq]
    refine ⟨by omega, by simp, by omega⟩
  · rw [fromDays_decomp _ ((y + 400) / 400) ((y + 400) % 400) (153 + (d - 1))
      (by omega) (by omega) (by omega) (Or.inl (by omega))]
    clear hera
    have hmp : (5 * (153 + (d - 1)) + 2) / 153 = 5 := by omega
    rw [hmp]
    unfold monthFromMp
    rw [if_pos (by omega)]
    simp only [Date.mk.injEq]
    refine ⟨by omega, by simp, by omega⟩
  · rw [fromDays_decomp _ ((y + 400) / 400) ((y + 400) % 400) (184 + (d - 1))
      (by omega) (by omega) (by omega) (Or.inl (by omega))]
    clear hera
    have hmp : (5 * (184 + (d - 1)) + 2) / 153 = 6 := by omega
    rw [hmp]
    unfold monthFromMp
    rw [if_pos (by omega)]
    simp only [Date.mk.injEq]
    refine ⟨by omega, by simp, by omega⟩
  · rw [fromDays_decomp _ ((y + 400) / 400) ((y + 400) % 400) (214 + (d - 1))
      (by omega) (by omega) (by omega) (Or.inl (by omega))]
    clear hera
    have hmp : (5 * (214 + (d - 1)) + 2) / 153 = 7 := by omega
    rw [hmp]
    unfold monthFromMp
    rw [if_pos (by omega)]
    simp only [Date.mk.injEq]
    refine ⟨by omega, by simp, by omega⟩
  · rw [fromDays_decomp _ ((y + 400) / 400) ((y + 400) % 400) (245 + (d - 1))
      (by omega) (by omega) (by omega) (Or.inl (by omega))]
    clear hera
    have hmp : (5 * (245 + (d - 1)) + 2) / 153 = 8 := by omega
    rw [hmp]
    unfold monthFromMp
    rw [if_pos (by omega)]
    simp only [Date.mk.injEq]
    refine ⟨by omega, by simp, by omega⟩
  · rw [fromDays_decomp _ ((y + 400) / 400) ((y + 400) % 400) (275 + (d - 1))
      (by omega) (by omega) (by omega) (Or.inl (by omega))]
    clear hera
    have hmp : (5 * (275 + (d - 1)) + 2) / 153 = 9 := by omega
    rw [hmp]
    unfold monthFromMp
    rw [if_pos (by omega)]
    simp only [Date.mk.injEq]
    refine ⟨by omega, by simp, by omega⟩

lemma fromDays_toDays {dt : Date} (h : ValidDate dt) : fromDays (toDays dt) = dt := by
  obtain ⟨y, m, d⟩ := dt
  obtain ⟨h1, h2, h3, h4⟩ := h
  dsimp only at h1 h2 h3 h4
  by_cases hm2 : m ≤ 2
  · interval_cases m
    · have hn : toDays ⟨y, 1, d⟩
          = 365 * y + ((y + 3) / 4 - (y + 99) / 100 + (y + 399) / 400) + (d - 1) := by
        simp [toDays, daysBeforeMonth, monthOffset, leapsBefore]
      rw [hn]
      exact fromDays_eq_jan y d h3 (by simpa [daysInMonth] using h4)
    · have hn : toDays ⟨y, 2, d⟩
          = 365 * y + ((y + 3) / 4 - (y + 99) / 100 + (y + 399) / 400)
            + (31 + (d - 1)) := by
        simp [toDays, daysBeforeMonth, monthOffset, leapsBefore]
        omega
      rw [hn]
      refine fromDays_eq_feb y d h3 ?_
      by_cases hL : isLeap y = true
      · have hLp := isLeap_iff.1 hL
        simp [daysInMonth, hL] at h4
        omega
      · have hLp : ¬((y % 4 = 0 ∧ y % 100 ≠ 0) ∨ y % 400 = 0) :=
          fun hc => hL (isLeap_iff.2 hc)
        simp [daysInMonth, hL] at h4
        omega
  · have h2m : 2 < m := by omega
    have hn : toDays ⟨y, m, d⟩
        = 365 * y + ((y + 3) / 4 - (y + 99) / 100 + (y + 399) / 400)
          + (monthOffset m + if isLeap y = true then 1 else 0) + (d - 1) := by
      simp [toDays, daysBeforeMonth, leapsBefore, h2m]
    rw [hn]
    exact fromDays_eq_mar y m d _ (by omega) h2 h3 h4
      (fun hp => if_pos (isLeap_iff.2 hp))
      (fun hp => if_neg (fun hc => hp (isLeap_iff.1 hc)))

/-! ## General list-arithmetic helpers -/

lemma foldl_add_eq (l : List ℚ) : ∀ a : ℚ, l.foldl (· + ·) a = a + l.sum := by
  induction l with
  | nil => simp
  | cons x xs ih => intro a; simp only [List.foldl_cons, ih, List.sum_cons]; ring

lemma sum_map_ite {α : Type} (l : List α) (q : α → Bool) (c : ℚ) :
    (l.map fun x => if q x then c else 0).sum = ((l.filter q).length : ℚ) * c := by
  induction l with
  | nil => simp
  | cons x xs ih =>
    by_cases hx : q x = true
    · simp [hx, ih]; ring
    · simp [hx, ih]

lemma sum_map_add {α : Type} (l : List α) (f g : α → ℚ) :
    (l.map fun x => f x + g x).sum = (l.map f).sum + (l.map g).sum := by
  induction l with
  | nil => simp
  | cons x xs ih => simp [ih]; ring

lemma sum_map_comm {α β : Type} (l₁ : List α) (l₂ : List β) (f : α → β → ℚ) :
    (l₁.map fun a => (l₂.map (f a)).sum).sum
      = (l₂.map fun b => (l₁.map fun a => f a b).sum).sum := by
  induction l₁ with
  | nil => simp
  | cons x xs ih =>
    simp only [List.map_cons, List.sum_cons, ih, ← sum_map_add]

/-! ## Facts about the cost-allocation pieces -/

lemma peopleThisNight_pos {people : List Person} {p : Person} {i : Nat}
    (hmem : p ∈ people) (hflag : p.nights.getD i false = true) :
    0 < peopleThisNight people i := by
  have : p ∈ people.filter (fun q => q.nights.getD i false) :=
    List.mem_filter.2 ⟨hmem, hflag⟩
  exact List.length_pos_of_mem this

lemma personCostFor_perNight_length (people : List Person) (pn : ℚ)
    (N : Nat) (p : Person) : (personCostFor people pn N p).perNight.length = N := by
  simp [personCostFor]

lemma personCostFor_perNight_getD (people : List Person) (pn : ℚ)
    (N : Nat) (p : Person) {i : Nat} (hi : i < N) :
    (personCostFor people pn N p).perNight.getD i 0 = costThisNight people pn p i := by
  simp [personCostFor, List.getD_eq_getElem?_getD, List.getElem?_map,
    List.getElem?_range hi]

lemma personCostFor_total (people : List Person) (pn : ℚ) (N : Nat) (p : Person) :
    (personCostFor people pn N p).total = (personCostFor people pn N p).perNight.sum := by
  simp [personCostFor, foldl_add_eq]

lemma costThisNight_of_present {people : List Person} {p : Person} {i : Nat}
    (hmem : p ∈ people) (hflag : p.nights.getD i false = true) (pn : ℚ) :
    costThisNight people pn p i = pn / (peopleThisNight people i : ℚ) := by
  unfold costThisNight
  rw [hflag]
  simp [peopleThisNight_pos hmem hflag]

lemma costThisNight_of_absent {p : Person} {i : Nat}
    (hflag : p.nights.getD i false = false) (people : List Person) (pn : ℚ) :
    costThisNight people pn p i = 0 := by
  unfold costThisNight
  rw [hflag]
  simp

lemma getD_map {α β : Type} (l : List α) (f : α → β) {k : Nat}
    (hk : k < l.length) (d : β) (d' : α) :
    (l.map f).getD k d = f (l.getD k d') := by
  simp [List.getD_eq_getElem?_getD, List.getElem?_map, List.getElem?_eq_getElem hk]

lemma getD_mem {α : Type} (l : List α) {k : Nat} (hk : k < l.length) (d : α) :
    l.getD k d ∈ l := by
  rw [List.getD_eq_getElem?_getD, List.getElem?_eq_getElem hk]
  exact List.getElem_mem hk

/-- Away from its three degenerate guards, `calculateCosts` is the map of
`personCostFor` over the roster. -/
lemma calculateCosts_eq_map {people : List Person} {price : ℚ} {N : Nat}
    (hN : N ≠ 0) (hp : price ≠ 0) (hne : people ≠ []) :
    calculateCosts people price N
      = people.map (personCostFor people (price / (N : ℚ)) N) := by
  unfold calculateCosts
  rw [if_neg]
  push_neg
  exact ⟨hN, hp, by simpa [List.length_eq_zero] using hne⟩

/-! ## Claim theorems about `calculateCosts` -/

/-- C4: for every roster, price and night count N, `calculateCosts` returns
the empty sequence (no cost records at all) whenever N = 0, or the total
price = 0, or the roster is empty. -/
theorem calculateCosts_degenerate_empty (people : List Person) (price : ℚ)
    (N : Nat) (h : N = 0 ∨ price = 0 ∨ people = []) :
    calculateCosts people price N = [] := by
  unfold calculateCosts
  rw [if_pos]
  rcases h with h | h | h
  · exact Or.inl h
  · exact Or.inr (Or.inl h)
  · exact Or.inr (Or.inr (by simp [h]))

/-- C4 witness: the guard fires at a concrete degenerate input. -/
theorem calculateCosts_degenerate_empty_witness :
    calculateCosts [⟨"1", "Alice", [true]⟩] 0 1 = [] :=
  calculateCosts_degenerate_empty [⟨"1", "Alice", [true]⟩] 0 1 (Or.inr (Or.inl rfl))

/-- C8: `calculateCosts` is deterministic — two invocations with identical
roster, price and night-count inputs yield identical output; in this pure
embedding there is no hidden state and the input roster is never mutated. -/
theorem calculateCosts_deterministic (people₁ people₂ : List Person)
    (price₁ price₂ : ℚ) (n₁ n₂ : Nat)
    (hpeople : people₁ = people₂) (hprice : price₁ = price₂) (hn : n₁ = n₂) :
    calculateCosts people₁ price₁ n₁ = calculateCosts people₂ price₂ n₂ := by
  rw [hpeople, hprice, hn]

/-- C8 witness: determinism at a concrete input. -/
theorem calculateCosts_deterministic_witness :
    calculateCosts [⟨"1", "Alice", [true, false]⟩] 200 2
      = calculateCosts [⟨"1", "Alice", [true, false]⟩] 200 2 :=
  calculateCosts_deterministic _ _ _ _ _ _ rfl rfl rfl

/-- C1: for N ≠ 0, price ≠ 0 and a non-empty roster, `calculateCosts`
returns exactly one `PersonCost` per person, in roster order, and for each
night index i below N: a person flagged present at i is charged
(price / N) / (number of people in the whole roster present at i), while a
person whose flag at i is absent or false is charged 0. -/
theorem calculateCosts_per_night_formula (people : List Person) (price : ℚ)
    (N : Nat) (hN : N ≠ 0) (hp : price ≠ 0) (hne : people ≠ []) :
    (calculateCosts people price N).length = people.length ∧
    ∀ k, k < people.length →
      ((calculateCosts people price N).getD k pc0).personId
          = (people.getD k p0).id ∧
      ((calculateCosts people price N).getD k pc0).perNight.length = N ∧
      ∀ i, i < N →
        ((calculateCosts people price N).getD k pc0).perNight.getD i 0 =
          if (people.getD k p0).nights.getD i false then
            price / (N : ℚ) / (peopleThisNight people i : ℚ)
          else 0 := by
  rw [calculateCosts_eq_map hN hp hne]
  refine ⟨List.length_map _ _, ?_⟩
  intro k hk
  rw [getD_map people _ hk pc0 p0]
  refine ⟨rfl, personCostFor_perNight_length _ _ _ _, ?_⟩
  intro i hi
  rw [personCostFor_perNight_getD _ _ _ _ hi]
  by_cases hflag : (people.getD k p0).nights.getD i false = true
  · rw [costThisNight_of_present (getD_mem people hk p0) hflag, if_pos hflag]
  · rw [costThisNight_of_absent (Bool.not_eq_true _ ▸ hflag) people,
      if_neg (by simpa using hflag)]

/-- C1 witness: the formula instantiated on the three-person roster of the
repository's own test-suite, night 1 (Alice and Bob present, Charlie not). -/
theorem calculateCosts_per_night_formula_witness :
    ((calculateCosts
        [⟨"1", "Alice", [true, true, true]⟩,
         ⟨"2", "Bob", [true, true, false]⟩,
         ⟨"3", "Charlie", [true, false, false]⟩] 300 3).getD 1 pc0).perNight.getD 1 0
      = if (([⟨"1", "Alice", [true, true, true]⟩,
             ⟨"2", "Bob", [true, true, false]⟩,
             ⟨"3", "Charlie", [true, false, false]⟩] : List Person).getD 1 p0).nights.getD 1 false
        then (300 : ℚ) / (3 : ℚ) / (peopleThisNight
          [⟨"1", "Alice", [true, true, true]⟩,
           ⟨"2", "Bob", [true, true, false]⟩,
           ⟨"3", "Charlie", [true, false, false]⟩] 1 : ℚ)
        else 0 :=
  (((calculateCosts_per_night_formula
      [⟨"1", "Alice", [true, true, true]⟩,
       ⟨"2", "Bob", [true, true, false]⟩,
       ⟨"3", "Charlie", [true, false, false]⟩] 300 3
      (by decide) (by norm_num) (by decide)).2 1 (by decide)).2.2) 1 (by decide)

/-- C6: for every person in the roster (N ≠ 0, price ≠ 0), the `total`
field of that person's `PersonCost` equals the sum of the `perNight`
entries of that same record; and a person marked absent every night gets
`perNight` all zero and `total` 0, regardless of the other people. -/
theorem calculateCosts_total_is_sum (people : List Person) (price : ℚ)
    (N : Nat) (hN : N ≠ 0) (hp : price ≠ 0) :
    ∀ k, k < people.length →
      ((calculateCosts people price N).getD k pc0).total
          = ((calculateCosts people price N).getD k pc0).perNight.sum ∧
      ((∀ i, i < N → (people.getD k p0).nights.getD i false = false) →
        ((calculateCosts people price N).getD k pc0).perNight
            = List.replicate N 0 ∧
        ((calculateCosts people price N).getD k pc0).total = 0) := by
  intro k hk
  have hne : people ≠ [] := by
    intro h
    rw [h] at hk
    exact absurd hk (by simp)
  rw [calculateCosts_eq_map hN hp hne, getD_map people _ hk pc0 p0]
  refine ⟨personCostFor_total _ _ _ _, ?_⟩
  intro habs
  have hper : (personCostFor people (price / (N : ℚ)) N (people.getD k p0)).perNight
      = List.replicate N 0 := by
    apply List.eq_replicate_iff.2
    refine ⟨personCostFor_perNight_length _ _ _ _, ?_⟩
    intro b hb
    unfold personCostFor at hb
    obtain ⟨i, hi, rfl⟩ := List.mem_map.1 hb
    exact costThisNight_of_absent (habs i (List.mem_range.1 hi)) people _
  refine ⟨hper, ?_⟩
  rw [personCostFor_total, hper]
  simp

/-- C6 witness: Alice absent both nights while Bob is present both;
Alice's record is all-zero and her total equals her per-night sum. -/
theorem calculateCosts_total_is_sum_witness :
    ((calculateCosts [⟨"1", "Alice", [false, false]⟩, ⟨"2", "Bob", [true, true]⟩]
        200 2).getD 0 pc0).perNight = List.replicate 2 0 ∧
    ((calculateCosts [⟨"1", "Alice", [false, false]⟩, ⟨"2", "Bob", [true, true]⟩]
        200 2).getD 0 pc0).total = 0 :=
  (calculateCosts_total_is_sum
      [⟨"1", "Alice", [false, false]⟩, ⟨"2", "Bob", [true, true]⟩] 200 2
      (by decide) (by norm_num) 0 (by decide)).2
    (by decide)

/-- C7: a single-person roster present every night pays price / N each
night and a total of exactly the full price. -/
theorem calculateCosts_single_person (p : Person) (price : ℚ) (N : Nat)
    (hN : N ≠ 0) (hp : price ≠ 0)
    (hall : ∀ i, i < N → p.nights.getD i false = true) :
    calculateCosts [p] price N
      = [⟨p.id, List.replicate N (price / (N : ℚ)), price⟩] := by
  have hN' : (N : ℚ) ≠ 0 := Nat.cast_ne_zero.2 hN
  rw [calculateCosts_eq_map hN hp (by simp)]
  have hcount : ∀ i, i < N → peopleThisNight [p] i = 1 := by
    intro i hi
    have h := hall i hi
    rw [List.getD_eq_getElem?_getD] at h
    simp [peopleThisNight, h]
  have hcost : ∀ i, i < N → costThisNight [p] (price / (N : ℚ)) p i = price / (N : ℚ) := by
    intro i hi
    rw [costThisNight_of_present (List.mem_singleton_self p) (hall i hi), hcount i hi]
    simp
  have hper : (List.range N).map (costThisNight [p] (price / (N : ℚ)) p)
      = List.replicate N (price / (N : ℚ)) := by
    apply List.eq_replicate_iff.2
    refine ⟨by simp, ?_⟩
    intro b hb
    obtain ⟨i, hi, rfl⟩ := List.mem_map.1 hb
    exact hcost i (List.mem_range.1 hi)
  simp only [List.map_cons, List.map_nil]
  unfold personCostFor
  rw [hper, foldl_add_eq, List.sum_replicate, nsmul_eq_mul, zero_add,
    mul_div_cancel₀ price hN']

/-- C7 witness: the spec's own example, price 200 over 2 nights, per-night
[100, 100] and total 200. -/
theorem calculateCosts_single_person_witness :
    calculateCosts [⟨"1", "Alice", [true, true]⟩] 200 2
      = [⟨"1", List.replicate 2 ((200 : ℚ) / (2 : ℚ)), 200⟩] :=
  calculateCosts_single_person ⟨"1", "Alice", [true, true]⟩ 200 2
    (by decide) (by norm_num) (by decide)

/-- C9 (implicit): when a person's attendance list is shorter than N,
indices beyond its length are treated as absent: the returned `perNight`
still has exactly N entries and every entry at an index at or past the
list's length is 0; the function is total, no out-of-bounds fault. -/
theorem calculateCosts_short_attendance (people : List Person) (price : ℚ)
    (N : Nat) (hN : N ≠ 0) (hp : price ≠ 0) :
    ∀ k, k < people.length →
      ((calculateCosts people price N).getD k pc0).perNight.length = N ∧
      ∀ i, i < N → (people.getD k p0).nights.length ≤ i →
        ((calculateCosts people price N).getD k pc0).perNight.getD i 0 = 0 := by
  intro k hk
  have hne : people ≠ [] := by
    intro h
    rw [h] at hk
    exact absurd hk (by simp)
  rw [calculateCosts_eq_map hN hp hne, getD_map people _ hk pc0 p0]
  refine ⟨personCostFor_perNight_length _ _ _ _, ?_⟩
  intro i hi hshort
  rw [personCostFor_perNight_getD _ _ _ _ hi]
  exact costThisNight_of_absent (List.getD_eq_default _ _ hshort) people _

/-- C9 witness: Alice's flag list has length 1 but N = 3; her record still
has 3 per-night entries and night 2 costs her 0. -/
theorem calculateCosts_short_attendance_witness :
    ((calculateCosts [⟨"1", "Alice", [true]⟩, ⟨"2", "Bob", [true, true, true]⟩]
        300 3).getD 0 pc0).perNight.length = 3 ∧
    ((calculateCosts [⟨"1", "Alice", [true]⟩, ⟨"2", "Bob", [true, true, true]⟩]
        300 3).getD 0 pc0).perNight.getD 2 0 = 0 :=
  ⟨(calculateCosts_short_attendance
      [⟨"1", "Alice", [true]⟩, ⟨"2", "Bob", [true, true, true]⟩] 300 3
      (by decide) (by norm_num) 0 (by decide)).1,
   (calculateCosts_short_attendance
      [⟨"1", "Alice", [true]⟩, ⟨"2", "Bob", [true, true, true]⟩] 300 3
      (by decide) (by norm_num) 0 (by decide)).2 2 (by decide) (by decide)⟩

lemma sum_map_ite_prop {α : Type} (l : List α) (q : α → Prop) [DecidablePred q]
    (c : ℚ) :
    (l.map fun x => if q x then c else 0).sum
      = ((l.filter fun x => decide (q x)).length : ℚ) * c := by
  induction l with
  | nil => simp
  | cons x xs ih =>
    by_cases hx : q x
    · simp [hx, ih]
      ring
    · simp [hx, ih]

/-- Summing one night's cost over the whole roster recovers the nightly
price when the night is occupied, and 0 otherwise. -/
lemma sum_costThisNight (people : List Person) (pn : ℚ) (i : Nat) :
    (people.map fun p => costThisNight people pn p i).sum
      = if 0 < peopleThisNight people i then pn else 0 := by
  have hfun : (fun p => costThisNight people pn p i)
      = (fun p : Person => if p.nights.getD i false then
          (if peopleThisNight people i > 0 then pn / (peopleThisNight people i : ℚ) else 0)
          else 0) := rfl
  rw [hfun, sum_map_ite]
  by_cases hpos : 0 < peopleThisNight people i
  · rw [if_pos hpos, if_pos hpos]
    have hc : ((peopleThisNight people i : ℚ)) ≠ 0 :=
      Nat.cast_ne_zero.2 (Nat.pos_iff_ne_zero.1 hpos)
    show ((people.filter fun p => p.nights.getD i false).length : ℚ)
        * (pn / (peopleThisNight people i : ℚ)) = pn
    have : ((people.filter fun p => p.nights.getD i false).length : ℚ)
        = (peopleThisNight people i : ℚ) := rfl
    rw [this, mul_comm]
    exact div_mul_cancel₀ pn hc
  · have h0 : peopleThisNight people i = 0 := Nat.eq_zero_of_not_pos hpos
    have h0' : (people.filter fun p => p.nights.getD i false).length = 0 := h0
    rw [if_neg hpos, if_neg hpos, h0']
    simp

/-- C10 (implicit conservation): for price ≠ 0 and N ≠ 0, the roster-wide
sum of night i's costs is price / N when somebody is present at i and 0
otherwise; the sum of all totals is (price / N) times the number of
occupied nights, and it equals the full price exactly when every night has
at least one attendee. -/
theorem calculateCosts_conservation (people : List Person) (price : ℚ)
    (N : Nat) (hN : N ≠ 0) (hp : price ≠ 0) :
    (∀ i, i < N →
      ((calculateCosts people price N).map (fun pc => pc.perNight.getD i 0)).sum
        = if 0 < peopleThisNight people i then price / (N : ℚ) else 0) ∧
    ((calculateCosts people price N).map PersonCost.total).sum
      = (price / (N : ℚ))
        * (((List.range N).filter fun i =>
            decide (0 < peopleThisNight people i)).length : ℚ) ∧
    (((calculateCosts people price N).map PersonCost.total).sum = price
      ↔ ∀ i, i < N → 0 < peopleThisNight people i) := by
  have hN' : (N : ℚ) ≠ 0 := Nat.cast_ne_zero.2 hN
  have hpn : price / (N : ℚ) ≠ 0 := div_ne_zero hp hN'
  by_cases hne : people = []
  · subst hne
    have hempty : calculateCosts [] price N = [] := by
      simp [calculateCosts]
    have hcount : ∀ i, peopleThisNight [] i = 0 := fun i => rfl
    rw [hempty]
    refine ⟨?_, ?_, ?_⟩
    · intro i _
      rw [hcount i]
      simp
    · simp [hcount]
    · constructor
      · intro h
        exact absurd h.symm hp
      · intro h
        have := h 0 (Nat.pos_of_ne_zero hN)
        rw [hcount 0] at this
        exact absurd this (by simp)
  · rw [calculateCosts_eq_map hN hp hne]
    have hnight : ∀ i, i < N →
        ((people.map (personCostFor people (price / (N : ℚ)) N)).map
          (fun pc => pc.perNight.getD i 0)).sum
          = if 0 < peopleThisNight people i then price / (N : ℚ) else 0 := by
      intro i hi
      rw [List.map_map]
      have : (people.map ((fun pc => pc.perNight.getD i 0)
            ∘ personCostFor people (price / (N : ℚ)) N))
          = people.map (fun p => costThisNight people (price / (N : ℚ)) p i) := by
        apply List.map_congr_left
        intro p _
        exact personCostFor_perNight_getD people _ N p hi
      rw [this, sum_costThisNight]
    have htotals : ((people.map (personCostFor people (price / (N : ℚ)) N)).map
          PersonCost.total).sum
        = (price / (N : ℚ))
          * (((List.range N).filter fun i =>
              decide (0 < peopleThisNight people i)).length : ℚ) := by
      rw [List.map_map]
      have h1 : (people.map (PersonCost.total ∘ personCostFor people (price / (N : ℚ)) N))
          = people.map (fun p =>
              ((List.range N).map (costThisNight people (price / (N : ℚ)) p)).sum) := by
        apply List.map_congr_left
        intro p _
        show (personCostFor people (price / (N : ℚ)) N p).total = _
        rw [personCostFor_total]
        rfl
      rw [h1, sum_map_comm]
      have h2 : ((List.range N).map fun i =>
            (people.map fun p => costThisNight people (price / (N : ℚ)) p i).sum)
          = (List.range N).map fun i =>
              if 0 < peopleThisNight people i then price / (N : ℚ) else 0 := by
        apply List.map_congr_left
        intro i _
        exact sum_costThisNight people _ i
      rw [h2, sum_map_ite_prop, mul_comm]
    refine ⟨hnight, htotals, ?_⟩
    rw [htotals]
    constructor
    · intro h
      have hfull : (price / (N : ℚ)) * (N : ℚ) = price := div_mul_cancel₀ price hN'
      have hcnt : (((List.range N).filter fun i =>
          decide (0 < peopleThisNight people i)).length : ℚ) = (N : ℚ) := by
        apply mul_left_cancel₀ hpn
        rw [h, hfull]
      have hcntN : ((List.range N).filter fun i =>
          decide (0 < peopleThisNight people i)).length = N := Nat.cast_inj.1 hcnt
      have hfilter : ((List.range N).filter fun i =>
          decide (0 < peopleThisNight people i)) = List.range N :=
        (List.filter_sublist _).eq_of_length
          (by rw [hcntN, List.length_range])
      intro i hi
      have hmem : i ∈ (List.range N).filter fun i =>
          decide (0 < peopleThisNight people i) := by
        rw [hfilter]
        exact List.mem_range.2 hi
      exact of_decide_eq_true (List.mem_filter.1 hmem).2
    · intro h
      have hfilter : ((List.range N).filter fun i =>
          decide (0 < peopleThisNight people i)) = List.range N :=
        List.filter_eq_self.2 fun a ha =>
          decide_eq_true (h a (List.mem_range.1 ha))
      rw [hfilter, List.length_range]
      exact div_mul_cancel₀ price hN'

/-- C10 witness: the three-person partial-overlap roster of the test
suite: price 300 over 3 nights, every night occupied, so night 1's costs
sum to 100 and all totals sum to the full 300. -/
theorem calculateCosts_conservation_witness :
    ((calculateCosts
        [⟨"1", "Alice", [true, true, true]⟩,
         ⟨"2", "Bob", [true, true, false]⟩,
         ⟨"3", "Charlie", [true, false, false]⟩] 300 3).map
      PersonCost.total).sum = 300 :=
  (calculateCosts_conservation
      [⟨"1", "Alice", [true, true, true]⟩,
       ⟨"2", "Bob", [true, true, false]⟩,
       ⟨"3", "Charlie", [true, false, false]⟩] 300 3
      (by decide) (by norm_num)).2.2.2 (by decide)

/-- Adding `i` days to the day number of a valid date lands on its `i`-th
calendar successor. -/
lemma fromDays_toDays_add {dt : Date} (h : ValidDate dt) (i : Nat) :
    fromDays (toDays dt + i) = succDay^[i] dt := by
  induction i generalizing dt with
  | zero => simpa using fromDays_toDays h
  | succ n ih =>
    have hstep : toDays dt + (n + 1) = toDays (succDay dt) + n := by
      rw [toDays_succDay h]
      omega
    rw [hstep, ih (succDay_valid h), Function.iterate_succ_apply]

lemma parseDate_valid {s : String} {dt : Date} (h : parseDate s = some dt) :
    ValidDate dt := by
  unfold parseDate at h
  split at h
  · split at h
    · split at h
      · obtain ⟨rfl⟩ := Option.some.inj h
        rename_i hcond
        exact ⟨hcond.2.2.2.1, hcond.2.2.2.2.1, hcond.2.2.2.2.2.1, hcond.2.2.2.2.2.2⟩
      · exact absurd h (by simp)
    · exact absurd h (by simp)
  · exact absurd h (by simp)

lemma parseDate_ne_empty {s : String} {dt : Date} (h : parseDate s = some dt) :
    s ≠ "" := by
  intro he
  subst he
  rw [show parseDate "" = none from rfl] at h
  exact absurd h (by simp)

lemma getTime_le_getTime {a b : Date} (h : toDays b ≤ toDays a) :
    getTime b ≤ getTime a := by
  unfold getTime
  omega

/-! ## Claim theorems about the date calculations -/

/-- C5: `calculateNights` returns 0 (and raises no fault) whenever either
date string is empty, or both parse and the check-out date is not strictly
after the check-in date (equal or inverted included). -/
theorem calculateNights_degenerate (checkIn checkOut : String)
    (h : checkIn = "" ∨ checkOut = "" ∨
      ∃ a b, parseDate checkIn = some a ∧ parseDate checkOut = some b ∧
        toDays b ≤ toDays a) :
    calculateNights checkIn checkOut = some 0 := by
  unfold calculateNights
  rcases h with h | h | ⟨a, b, ha, hb, hle⟩
  · rw [if_pos (Or.inl h)]
  · rw [if_pos (Or.inr h)]
  · rw [if_neg (by push_neg; exact ⟨parseDate_ne_empty ha, parseDate_ne_empty hb⟩),
      ha, hb]
    show (if getTime b ≤ getTime a then some 0 else _) = some 0
    rw [if_pos (getTime_le_getTime hle)]

/-- C5 witness: equal check-in and check-out dates give 0 nights. -/
theorem calculateNights_degenerate_witness :
    calculateNights "2024-01-15" "2024-01-15" = some 0 :=
  calculateNights_degenerate "2024-01-15" "2024-01-15"
    (Or.inr (Or.inr ⟨⟨2024, 1, 15⟩, ⟨2024, 1, 15⟩, by decide, by decide, by decide⟩))

/-- C2: on two valid date strings with check-out strictly after check-in,
`calculateNights` returns exactly the whole-day difference (the floor of
the time difference over one day's duration), and that count is exactly
the number of calendar-day steps from check-in to check-out, so month and
year boundaries are crossed correctly. -/
theorem calculateNights_exact (checkIn checkOut : String) (a b : Date)
    (ha : parseDate checkIn = some a) (hb : parseDate checkOut = some b)
    (hlt : toDays a < toDays b) :
    calculateNights checkIn checkOut
        = some ((toDays b : Int) - (toDays a : Int)) ∧
    succDay^[toDays b - toDays a] a = b := by
  constructor
  · unfold calculateNights
    rw [if_neg (by push_neg; exact ⟨parseDate_ne_empty ha, parseDate_ne_empty hb⟩),
      ha, hb]
    show (if getTime b ≤ getTime a then _ else
      some (Int.fdiv (getTime b - getTime a) 86400000)) = _
    rw [if_neg (by unfold getTime; omega)]
    congr 1
    have hdiff : getTime b - getTime a
        = ((toDays b : Int) - (toDays a : Int)) * 86400000 := by
      unfold getTime
      ring
    rw [hdiff, Int.mul_fdiv_cancel _ (by norm_num)]
  · have h2 := fromDays_toDays_add (parseDate_valid ha) (toDays b - toDays a)
    have hsum : toDays a + (toDays b - toDays a) = toDays b := by omega
    rw [hsum] at h2
    rw [← h2]
    exact fromDays_toDays (parseDate_valid hb)

/-- C2 witness: the spec's two boundary-crossing examples, 2024-01-31 →
2024-02-03 and 2023-12-30 → 2024-01-02, both give 3 nights. -/
theorem calculateNights_exact_witness :
    calculateNights "2024-01-31" "2024-02-03" = some 3 ∧
    calculateNights "2023-12-30" "2024-01-02" = some 3 :=
  ⟨((calculateNights_exact "2024-01-31" "2024-02-03" ⟨2024, 1, 31⟩ ⟨2024, 2, 3⟩
      (by decide) (by decide) (by decide)).1).trans (by decide),
   ((calculateNights_exact "2023-12-30" "2024-01-02" ⟨2023, 12, 30⟩ ⟨2024, 1, 2⟩
      (by decide) (by decide) (by decide)).1).trans (by decide)⟩

/-- C3 (amended): `getNightDates` returns the empty sequence when check-in
is empty or N = 0; on a well-formed (parseable) check-in date it returns
exactly N date strings, the i-th formatting the check-in date advanced by
i calendar days (so consecutive entries differ by exactly one calendar
day, rolling over month and year ends).  A malformed non-empty check-in
with N ≥ 1 instead makes `toISOString` throw (the `none` outcome, see the
counterexample). -/
theorem getNightDates_enumeration (checkIn : String) (nights : Nat) :
    ((checkIn = "" ∨ nights = 0) → getNightDates checkIn nights = some []) ∧
    (∀ dt : Date, parseDate checkIn = some dt →
      ∃ l, getNightDates checkIn nights = some l ∧ l.length = nights ∧
        ∀ i, i < nights → l.getD i "" = formatDate (succDay^[i] dt)) := by
  constructor
  · intro h
    unfold getNightDates
    rw [if_pos h]
  · intro dt hdt
    by_cases hn : nights = 0
    · subst hn
      refine ⟨[], ?_, rfl, fun i hi => absurd hi (Nat.not_lt_zero i)⟩
      unfold getNightDates
      rw [if_pos (Or.inr rfl)]
    · unfold getNightDates
      rw [if_neg (by push_neg; exact ⟨parseDate_ne_empty hdt, hn⟩), hdt]
      refine ⟨_, rfl, by simp, ?_⟩
      intro i hi
      rw [getD_map (List.range nights) _ (by simpa using hi) "" 0]
      have hr : (List.range nights).getD i 0 = i := by
        simp [List.getD_eq_getElem?_getD, List.getElem?_range hi]
      rw [hr, fromDays_toDays_add (parseDate_valid hdt) i]

/-- C3 counterexample: a malformed, non-empty check-in with N = 1 does not
produce a 1-element date list — the loop body calls `toISOString` on an
Invalid Date, which throws (the `none` outcome of the model). -/
theorem getNightDates_malformed_counterexample :
    ("not-a-date" : String) ≠ "" ∧ (1 : Nat) ≠ 0 ∧
    getNightDates "not-a-date" 1 = none := by
  refine ⟨by decide, by decide, ?_⟩
  rfl

/-- C3 witness: the test-suite's year-rollover case, three nights starting
2023-12-31. -/
theorem getNightDates_enumeration_witness :
    ∃ l, getNightDates "2023-12-31" 3 = some l ∧ l.length = 3 ∧
      ∀ i, i < 3 → l.getD i "" = formatDate (succDay^[i] ⟨2023, 12, 31⟩) :=
  (getNightDates_enumeration "2023-12-31" 3).2 ⟨2023, 12, 31⟩ (by decide)

end HotelSplitter
